import Mathlib

/-!
Verification of the price aggregation and report-formatting pipeline of
`aura.py` (hourly electricity spot-price reporting tool).

The Python source is shallowly embedded: Python floats are modelled as
rationals (`ℚ`), Python dicts as insertion-ordered association lists,
JSON payloads as an inductive `JVal` type, and Python exceptions as an
explicit result type `PRes`.  String rendering is modelled on `List Char`
and `String`.

Core `Rat` arithmetic (`Rat.add` etc.) is `@[irreducible]`, which blocks
kernel evaluation, so the embedding uses equivalent kernel-computable
wrappers (`qadd`, `qsub`, `qmul`, `qdiv`, `qabs`) built on `Rat.divInt`;
each wrapper is proved equal to the standard operation right below its
definition, and universal proofs immediately rewrite with those lemmas.
-/

/-! ## Kernel-computable rational arithmetic -/

/-- Addition on `ℚ`, definitionally kernel-computable (same value as `+`). -/
def qadd (a b : ℚ) : ℚ :=
  Rat.divInt (a.num * b.den + b.num * a.den) ((a.den : ℤ) * (b.den : ℤ))

/-- Subtraction on `ℚ`, kernel-computable (same value as `-`). -/
def qsub (a b : ℚ) : ℚ :=
  Rat.divInt (a.num * b.den - b.num * a.den) ((a.den : ℤ) * (b.den : ℤ))

/-- Multiplication on `ℚ`, kernel-computable (same value as `*`). -/
def qmul (a b : ℚ) : ℚ :=
  Rat.divInt (a.num * b.num) ((a.den : ℤ) * (b.den : ℤ))

/-- Inverse on `ℚ`, kernel-computable (same value as `⁻¹`). -/
def qinv (a : ℚ) : ℚ := Rat.divInt (a.den : ℤ) a.num

/-- Division on `ℚ`, kernel-computable (same value as `/`). -/
def qdiv (a b : ℚ) : ℚ := qmul a (qinv b)

/-- Absolute value on `ℚ`, kernel-computable (same value as `|·|`). -/
def qabs (a : ℚ) : ℚ := if a.num < 0 then -a else a

theorem qadd_eq (a b : ℚ) : qadd a b = a + b := by
  have ha : ((a.den : ℤ)) ≠ 0 := Int.natCast_ne_zero.mpr a.den_nz
  have hb : ((b.den : ℤ)) ≠ 0 := Int.natCast_ne_zero.mpr b.den_nz
  rw [qadd, ← Rat.divInt_add_divInt _ _ ha hb, Rat.num_divInt_den, Rat.num_divInt_den]

theorem qsub_eq (a b : ℚ) : qsub a b = a - b := by
  have ha : ((a.den : ℤ)) ≠ 0 := Int.natCast_ne_zero.mpr a.den_nz
  have hb : ((b.den : ℤ)) ≠ 0 := Int.natCast_ne_zero.mpr b.den_nz
  rw [qsub, ← Rat.divInt_sub_divInt _ _ ha hb, Rat.num_divInt_den, Rat.num_divInt_den]

theorem qmul_eq (a b : ℚ) : qmul a b = a * b := by
  rw [qmul, ← Rat.divInt_mul_divInt' a.num (a.den : ℤ) b.num (b.den : ℤ),
    Rat.num_divInt_den, Rat.num_divInt_den]

theorem qinv_eq (a : ℚ) : qinv a = a⁻¹ := (Rat.inv_def' a).symm

theorem qdiv_eq (a b : ℚ) : qdiv a b = a / b := by
  rw [qdiv, qmul_eq, qinv_eq, div_eq_mul_inv]

theorem qabs_eq (a : ℚ) : qabs a = |a| := by
  rw [qabs]
  split
  · rw [abs_of_neg (Rat.num_neg.mp (by assumption))]
  · rw [abs_of_nonneg (Rat.num_nonneg.mp (by omega))]

theorem mkRat_eq_div' (n : ℤ) (d : ℕ) : mkRat n d = (n : ℚ) / (d : ℚ) := by
  rw [Rat.mkRat_eq_divInt, Rat.divInt_eq_div]
  norm_num

/-! ## Decimal digit rendering

Models Python's rendering of a nonnegative integer to its decimal digit
string.  A fuel argument keeps the recursion structural, so that the
kernel can evaluate it inside `decide`. -/

def natCharsAux : ℕ → ℕ → List Char
  | 0, _ => []
  | fuel + 1, n =>
    if n = 0 then [] else natCharsAux fuel (n / 10) ++ [Char.ofNat (48 + n % 10)]

/-- Decimal digits of `n`, most significant first (`"0"` for zero), as
Python's `str` renders a nonnegative `int`. -/
def natToChars (n : ℕ) : List Char := if n = 0 then ['0'] else natCharsAux (n + 1) n

/-- Python `str(n)` for a nonnegative integer. -/
def natStr (n : ℕ) : String := String.mk (natToChars n)

/-- Left-pad a digit list with '0' to width `w`; models `"%0wd"` padding. -/
def padZeros (w : ℕ) (cs : List Char) : List Char :=
  List.replicate (w - cs.length) '0' ++ cs

/-- Python `f"{i:02d}"` for a nonnegative integer: the two-digit hour label. -/
def hourLabel (i : ℕ) : String := String.mk (padZeros 2 (natToChars i))

/-- Python `int(s)` restricted to strings of decimal digits (the hour labels
the program feeds it). -/
def parseHour (s : String) : ℕ :=
  s.data.foldl (fun a c => a * 10 + (c.toNat - 48)) 0

/-- Removes the longest suffix of characters satisfying `p`; models Python's
`str.rstrip` with a single-character strip set. -/
def stripTrailing (p : Char → Bool) (cs : List Char) : List Char :=
  (cs.reverse.dropWhile p).reverse

/-- Python `sep.join(lines)`. -/
def joinWith (sep : String) : List String → String
  | [] => ""
  | [x] => x
  | x :: y :: xs => x ++ sep ++ joinWith sep (y :: xs)

/-- Python `"\n".join(lines)`. -/
def joinLines (lines : List String) : String := joinWith "\n" lines

/-- Python `"{:<w}".format(s)`: pad on the right with spaces to width `w`
(no truncation). -/
def padRight (w : ℕ) (s : String) : String :=
  s ++ String.mk (List.replicate (w - s.length) ' ')

/-- Stable insertion into a list sorted by the boolean "less or equal"
relation `le`; `x` goes before the first element it is `le`-below-or-tied
with, matching Python's stable sorts. -/
def insertLe {α : Type} (le : α → α → Bool) (x : α) : List α → List α
  | [] => [x]
  | y :: ys => if le x y then x :: y :: ys else y :: insertLe le x ys

/-- Stable insertion sort by the boolean relation `le`; models Python's
`sorted` (which is stable). -/
def sortLe {α : Type} (le : α → α → Bool) (l : List α) : List α :=
  l.foldr (insertLe le) []

/-- Lexicographic code-point comparison of character lists; models Python's
`<` on strings. -/
def charsLt : List Char → List Char → Bool
  | [], [] => false
  | [], _ :: _ => true
  | _ :: _, [] => false
  | a :: as, b :: bs => if a = b then charsLt as bs else decide (a.toNat < b.toNat)

/-- Python's `<=` on strings (total order, so `a <= b` iff `not (b < a)`). -/
def strLe (a b : String) : Bool := !(charsLt b.data a.data)

/-! ## PriceFormatter (`format_price`, aura.py lines 27-34)

Python renders `f"{price:.{max_decimals}f}"` (fixed-point, round half to
even on the decimal value; ties cannot arise from binary doubles at
`max_decimals ≥ 1`) and then strips trailing zeros and a trailing decimal
point when a point is present. -/

/-- Round half to even: the integer nearest `x`, ties going to the even
integer, as Python's fixed-point formatting rounds. -/
def rhe (x : ℚ) : ℤ :=
  let f := Rat.floor x
  let r := qsub x ((f : ℤ) : ℚ)
  if r < mkRat 1 2 then f
  else if mkRat 1 2 < r then f + 1
  else if f % 2 = 0 then f else f + 1

/-- The rational `10 ^ d`. -/
def pow10 (d : ℕ) : ℚ := mkRat ((10 : ℤ) ^ d) 1

/-- Python `f"{price:.{max_decimals}f}"` as a character list: sign, integer
digits, and (when `max_decimals > 0`) a point followed by exactly
`max_decimals` fraction digits. -/
def formatFixedChars (price : ℚ) (max_decimals : ℕ) : List Char :=
  let n : ℤ := rhe (qmul price (pow10 max_decimals))
  let m : ℕ := n.natAbs
  let sign : List Char := if price < 0 then ['-'] else []
  let ip : List Char := natToChars (m / 10 ^ max_decimals)
  let fp : List Char := padZeros max_decimals (natToChars (m % 10 ^ max_decimals))
  sign ++ ip ++ (if max_decimals = 0 then [] else '.' :: fp)

/-- Models `format_price` (aura.py lines 27-34): fixed-point rendering, then
`rstrip("0").rstrip(".")` when a decimal point is present. -/
def format_price (price : ℚ) (max_decimals : ℕ) : String :=
  let cs := formatFixedChars price max_decimals
  if cs.contains '.' then
    String.mk (stripTrailing (fun c => c == '.') (stripTrailing (fun c => c == '0') cs))
  else String.mk cs

/-! ## HourRangeCompressor (`_format_hour_ranges`, aura.py lines 110-132) -/

/-- Renders one flushed run: a single hour as `"HH:00"`, a longer run as
`"HH:00-HH:00"` with exclusive end `(end + 1) % 24`. -/
def flushRange (start e : ℕ) : String :=
  if start = e then hourLabel start ++ ":00"
  else hourLabel start ++ ":00-" ++ hourLabel ((e + 1) % 24) ++ ":00"

/-- The walk of `_format_hour_ranges`: extend the current run `[start, e]`
while the next sorted value is `e + 1`, flushing on each break. -/
def rangesWalk : ℕ → ℕ → List ℕ → List String
  | start, e, [] => [flushRange start e]
  | start, e, x :: xs =>
    if x = e + 1 then rangesWalk start x xs
    else flushRange start e :: rangesWalk x x xs

/-- Models `_format_hour_ranges` (aura.py lines 110-132): sort the parsed
hour values ascending, merge consecutive runs, join with `", "`; empty
input yields the empty string. -/
def format_hour_ranges (hours : List String) : String :=
  if hours.isEmpty then ""
  else
    match sortLe (fun a b => Nat.ble a b) (hours.map parseHour) with
    | [] => ""
    | h :: t => joinWith ", " (rangesWalk h h t)

/-! ## Sparkline renderer (`_ascii_sparkline`, aura.py lines 135-143)

The Python function takes an unused `width` parameter; it is omitted here. -/

/-- The eight glyph levels `"▁▂▃▄▅▆▇█"`. -/
def sparkBars : List Char := ['▁', '▂', '▃', '▄', '▅', '▆', '▇', '█']

/-- Python `int(x)`: truncation toward zero. -/
def pyTrunc (x : ℚ) : ℤ := if x < 0 then -(Rat.floor (-x)) else Rat.floor x

/-- The `scale` lambda of `_ascii_sparkline`:
`int((p - min_p) / (max_p - min_p) * 7)` when `max_p > min_p`, else `0`. -/
def sparkScale (minP maxP p : ℚ) : ℕ :=
  if minP < maxP then (pyTrunc (qmul (qdiv (qsub p minP) (qsub maxP minP)) (mkRat 7 1))).toNat
  else 0

/-- Python `min(list)`: first minimal element under the fold
`acc := x if x < acc else acc` (junk `0` on empty input, which the callers
guard against). -/
def pyMinList : List ℚ → ℚ
  | [] => 0
  | v :: vs => vs.foldl (fun acc x => if x < acc then x else acc) v

/-- Python `max(list)`: first maximal element. -/
def pyMaxList : List ℚ → ℚ
  | [] => 0
  | v :: vs => vs.foldl (fun acc x => if acc < x then x else acc) v

/-- Models `_ascii_sparkline` (aura.py lines 135-143): filter out `None`,
then map each value to the glyph at its scaled level. -/
def ascii_sparkline (prices0 : List (Option ℚ)) : String :=
  let prices := prices0.filterMap id
  match prices with
  | [] => ""
  | p0 :: rest =>
    let minP := pyMinList (p0 :: rest)
    let maxP := pyMaxList (p0 :: rest)
    String.mk ((p0 :: rest).map (fun p => sparkBars.getD (sparkScale minP maxP p) '▁'))

/-! ## ReportBuilder: single-day report
(`format_prices_for_display`, aura.py lines 146-190)

A Python dict is modelled as an insertion-ordered association list; dict
iteration (`values()`, `items()`, key iteration) follows list order, and
`sorted(prices)` sorts the keys as strings. -/

/-- The tolerance `0.00001` used for price-extreme grouping. -/
def tol5 : ℚ := mkRat 1 100000

/-- The tolerance `0.0001` used for diff classification. -/
def tol4 : ℚ := mkRat 1 10000

/-- Python `prices[h]` / `prices.get(h)` on the modelled dict (first match;
`0` when absent, which callers never rely on). -/
def priceGet (prices : List (String × ℚ)) (h : String) : ℚ :=
  ((prices.find? (fun kv => kv.1 == h)).map Prod.snd).getD 0

/-- Python `h in prices` on the modelled dict. -/
def hasKey (prices : List (String × ℚ)) (h : String) : Bool :=
  (prices.find? (fun kv => kv.1 == h)).isSome

/-- The key order of the report body: `sorted(prices)` by default,
`sorted(prices, key=prices.get)` for `"price"`, the same reversed for
`"price_desc"` (stable, iterating the dict in insertion order). -/
def keyOrder (sort_by : Option String) (prices : List (String × ℚ)) : List String :=
  if sort_by = some "price" then
    sortLe (fun a b => decide (priceGet prices a ≤ priceGet prices b)) (prices.map Prod.fst)
  else if sort_by = some "price_desc" then
    sortLe (fun a b => decide (priceGet prices b ≤ priceGet prices a)) (prices.map Prod.fst)
  else sortLe strLe (prices.map Prod.fst)

/-- The `output_lines` list built by `format_prices_for_display`
(aura.py lines 156-189) for a nonempty price dict: title, average,
cheapest, most-expensive, sparkline, then one body line per hour key. -/
def format_prices_lines (prices : List (String × ℚ)) (date_str : String)
    (sort_by : Option String) : List String :=
  let values := prices.map Prod.snd
  let avg_price := qdiv (values.foldl qadd 0) (mkRat (values.length : ℤ) 1)
  let min_price := pyMinList values
  let max_price := pyMaxList values
  let cheapest := (prices.filter (fun kv => decide (qabs (qsub kv.2 min_price) < tol5))).map Prod.fst
  let expensive := (prices.filter (fun kv => decide (qabs (qsub kv.2 max_price) < tol5))).map Prod.fst
  [" HOURLY POWER PRICES (DK1) - " ++ date_str ++ " ",
   "Average Price: " ++ format_price avg_price 4 ++ " DKK/kWh",
   "Cheapest: " ++ format_hour_ranges cheapest ++ " (" ++ format_price min_price 4 ++ " DKK/kWh)",
   "Most Expensive: " ++ format_hour_ranges expensive ++ " (" ++ format_price max_price 4 ++ " DKK/kWh)",
   "Trend Sparkline: " ++ ascii_sparkline (values.map some)]
  ++ (keyOrder sort_by prices).map (fun h =>
      h ++ ":00 - " ++ hourLabel ((parseHour h + 1) % 24) ++ ":00 | "
        ++ format_price (priceGet prices h) 4 ++ " DKK/kWh")

/-- Models `format_prices_for_display` (aura.py lines 146-190). -/
def format_prices_for_display (prices : List (String × ℚ)) (date_str : String)
    (sort_by : Option String) : String :=
  if prices.isEmpty then "No price data for " ++ date_str ++ "."
  else joinLines (format_prices_lines prices date_str sort_by)

/-! ## ReportBuilder: comparison report
(`format_comparison_for_display`, aura.py lines 193-265) -/

/-- The `diffs` list of `format_comparison_for_display` (aura.py lines
212-224): for each hour 0-23 present in both dicts, the pair
`(label, today - yesterday)`, in hour order. -/
def commonDiffs (today_prices yesterday_prices : List (String × ℚ)) :
    List (String × ℚ) :=
  (List.range 24).filterMap (fun i =>
    let h := hourLabel i
    if hasKey today_prices h && hasKey yesterday_prices h then
      some (h, qsub (priceGet today_prices h) (priceGet yesterday_prices h))
    else none)

/-- Count of diffs classified as increased (`diff > 0.0001`). -/
def upCount (ds : List (String × ℚ)) : ℕ :=
  (ds.filter (fun x => decide (tol4 < x.2))).length

/-- Count of diffs classified as decreased (`diff < -0.0001`). -/
def downCount (ds : List (String × ℚ)) : ℕ :=
  (ds.filter (fun x => decide (x.2 < -tol4))).length

/-- Count of diffs classified as stable (neither increased nor decreased). -/
def stableCount (ds : List (String × ℚ)) : ℕ :=
  (ds.filter (fun x => !(decide (tol4 < x.2)) && !(decide (x.2 < -tol4)))).length

/-- The trend glyph of a diff: `▲` above `0.0001`, `▼` below `-0.0001`,
else `●` (aura.py line 253). -/
def trendGlyph (diff : ℚ) : String :=
  if tol4 < diff then "▲" else if diff < -tol4 then "▼" else "●"

/-- The fixed-width comparison row template
`"{:<11} | {:<8} | {:<8} | {:<8} | {:<8} | {:<5}"`. -/
def rowFmt (c0 c1 c2 c3 c4 c5 : String) : String :=
  padRight 11 c0 ++ " | " ++ padRight 8 c1 ++ " | " ++ padRight 8 c2 ++ " | "
    ++ padRight 8 c3 ++ " | " ++ padRight 8 c4 ++ " | " ++ padRight 5 c5

/-- One data row of the comparison report (aura.py lines 245-264). -/
def comparisonRow (today_prices yesterday_prices : List (String × ℚ))
    (hd : String × ℚ) : String :=
  let h := hd.1
  let diff := hd.2
  let yest := priceGet yesterday_prices h
  let today := priceGet today_prices h
  let pct := if yest = 0 then "N/A"
    else format_price (qmul (qdiv diff yest) (mkRat 100 1)) 2 ++ "%"
  let change := if 0 ≤ diff then format_price diff 4 else "-" ++ format_price (qabs diff) 4
  rowFmt (h ++ ":00-" ++ hourLabel ((parseHour h + 1) % 24) ++ ":00")
    (format_price yest 4) (format_price today 4) change pct (trendGlyph diff)

/-- Row order of the comparison report: by diff ascending for `"diff"`,
descending for `"diff_desc"`, else the hour order of `commonDiffs`
(Python `list.sort`, stable). -/
def sortDiffs (sort_by : Option String) (ds : List (String × ℚ)) :
    List (String × ℚ) :=
  if sort_by = some "diff" then sortLe (fun a b => decide (a.2 ≤ b.2)) ds
  else if sort_by = some "diff_desc" then sortLe (fun a b => decide (b.2 ≤ a.2)) ds
  else ds

/-- The `comparison_lines` list built by `format_comparison_for_display`
(aura.py lines 207-264) once both dicts are nonempty: title, summary block
(only when some hour is common), header row, then one row per common hour. -/
def format_comparison_lines (today_prices : List (String × ℚ))
    (today_date_str : String) (yesterday_prices : List (String × ℚ))
    (yesterday_date_str : String) (sort_by : Option String) : List String :=
  let ds := commonDiffs today_prices yesterday_prices
  let summary := if ds.isEmpty then [] else
    ["Avg Change: "
       ++ format_price (qdiv (ds.foldl (fun a x => qadd a x.2) 0) (mkRat (ds.length : ℤ) 1)) 4
       ++ " DKK/kWh",
     "Increased: " ++ natStr (upCount ds) ++ " | Decreased: " ++ natStr (downCount ds)
       ++ " | Stable: " ++ natStr (stableCount ds),
     "Trend Sparkline (Diffs): " ++ ascii_sparkline (ds.map (fun x => some x.2))]
  ((" PRICE COMPARISON (" ++ today_date_str ++ " vs " ++ yesterday_date_str ++ ") ") :: summary)
    ++ [rowFmt "Hour" "Yest" "Today" "Change" "% Chg" "Trend"]
    ++ (sortDiffs sort_by ds).map (comparisonRow today_prices yesterday_prices)

/-- Models `format_comparison_for_display` (aura.py lines 193-265): the
empty string when either dict is empty, else the joined lines. -/
def format_comparison_for_display (today_prices : List (String × ℚ))
    (today_date_str : String) (yesterday_prices : List (String × ℚ))
    (yesterday_date_str : String) (sort_by : Option String) : String :=
  if today_prices.isEmpty || yesterday_prices.isEmpty then ""
  else joinLines (format_comparison_lines today_prices today_date_str
    yesterday_prices yesterday_date_str sort_by)

/-! ## PriceAggregator (`fetch_prices`, aura.py lines 69-97)

The pure aggregation part of `fetch_prices`: from the parsed JSON payload
to the hourly totals dict (or `None`).  HTTP transport and the file cache
around it are external collaborators and are not modelled.  JSON values
are the inductive `JVal`; Python exceptions escaping the aggregation
(`TypeError` from `float` on a container, `AttributeError` from `.get` on
a non-dict) are modelled by the result type `PRes`. -/

/-- A parsed JSON value as Python's `json` module produces it. -/
inductive JVal where
  | jnull
  | jbool (b : Bool)
  | jnum (q : ℚ)
  | jstr (s : String)
  | jarr (elems : List JVal)
  | jobj (fields : List (String × JVal))

/-- Python exceptions that can escape the aggregation loop. -/
inductive PyErr where
  | typeError
  | valueError
  | attributeError
deriving DecidableEq

/-- Result of running modelled Python code: a value or an escaping
exception. -/
inductive PRes (α : Type) where
  | ok (a : α)
  | exn (e : PyErr)
deriving DecidableEq

def PRes.bind {α β : Type} : PRes α → (α → PRes β) → PRes β
  | .ok a, f => f a
  | .exn e, _ => .exn e

instance : Monad PRes where
  pure := PRes.ok
  bind := PRes.bind

/-- First binding of a key in a JSON object (API payloads carry no
duplicate keys). -/
def lookupField (fields : List (String × JVal)) (k : String) : Option JVal :=
  (fields.find? (fun kv => kv.1 == k)).map Prod.snd

/-- Python `v.get(k)`: `None` default on a dict, `AttributeError` on
anything else. -/
def dictGet (v : JVal) (k : String) : PRes JVal :=
  match v with
  | .jobj fields => .ok ((lookupField fields k).getD .jnull)
  | _ => .exn .attributeError

/-- Python `v.get(k, dflt)`. -/
def dictGetD (v : JVal) (k : String) (dflt : JVal) : PRes JVal :=
  match v with
  | .jobj fields => .ok ((lookupField fields k).getD dflt)
  | _ => .exn .attributeError

/-- Python iteration over a JSON value: lists yield elements, strings yield
one-character strings, dicts yield their keys, everything else raises
`TypeError`. -/
def pyIter : JVal → PRes (List JVal)
  | .jarr xs => .ok xs
  | .jstr s => .ok (s.data.map (fun c => .jstr (String.mk [c])))
  | .jobj fields => .ok (fields.map (fun kv => .jstr kv.1))
  | _ => .exn .typeError

/-- Python `v == hour_str` for a JSON value against a string: only a string
value can compare equal. -/
def jeqStr (v : JVal) (s : String) : Bool :=
  match v with
  | .jstr t => t == s
  | _ => false

/-- Decimal float literal parsing, modelling Python `float(string)` on the
common forms: optional surrounding spaces, optional sign, digits with an
optional single point (at least one digit), optional exponent part.
Parses the mantissa and returns it with the unconsumed rest. -/
def parseMantissa (cs : List Char) : Option (ℚ × List Char) :=
  let ip := cs.takeWhile Char.isDigit
  let r1 := cs.dropWhile Char.isDigit
  match r1 with
  | '.' :: r2 =>
    let fp := r2.takeWhile Char.isDigit
    let r3 := r2.dropWhile Char.isDigit
    if ip.isEmpty && fp.isEmpty then none
    else some (qadd (mkRat (ip.foldl (fun a c => a * 10 + (c.toNat - 48)) 0 : ℕ) 1)
      (mkRat (fp.foldl (fun a c => a * 10 + (c.toNat - 48)) 0 : ℕ) (10 ^ fp.length)), r3)
  | _ =>
    if ip.isEmpty then none
    else some (mkRat (ip.foldl (fun a c => a * 10 + (c.toNat - 48)) 0 : ℕ) 1, r1)

/-- The optional exponent tail: empty, or `e`/`E`, optional sign, digits. -/
def applyExponent (m : ℚ) : List Char → Option ℚ
  | [] => some m
  | e :: cs =>
    if e == 'e' || e == 'E' then
      match cs with
      | '+' :: ds =>
        if ds.isEmpty || !ds.all Char.isDigit then none
        else some (qmul m (mkRat ((10 : ℤ) ^ (ds.foldl (fun a c => a * 10 + (c.toNat - 48)) 0)) 1))
      | '-' :: ds =>
        if ds.isEmpty || !ds.all Char.isDigit then none
        else some (qdiv m (mkRat ((10 : ℤ) ^ (ds.foldl (fun a c => a * 10 + (c.toNat - 48)) 0)) 1))
      | ds =>
        if ds.isEmpty || !ds.all Char.isDigit then none
        else some (qmul m (mkRat ((10 : ℤ) ^ (ds.foldl (fun a c => a * 10 + (c.toNat - 48)) 0)) 1))
    else none

/-- Python `float(s)` on a string (decimal forms; `inf`/`nan`, underscores
and other exotica are out of the rational model and parse as failures). -/
def parseFloat (s : String) : Option ℚ :=
  let cs := ((s.data.dropWhile (fun c => c == ' ')).reverse.dropWhile (fun c => c == ' ')).reverse
  match cs with
  | '+' :: r => (parseMantissa r).bind (fun mr => applyExponent mr.1 mr.2)
  | '-' :: r => ((parseMantissa r).bind (fun mr => applyExponent mr.1 mr.2)).map Neg.neg
  | r => (parseMantissa r).bind (fun mr => applyExponent mr.1 mr.2)

/-- Python `float(v)` on a JSON value: numbers and booleans convert,
strings parse or raise `ValueError`, `None` and containers raise
`TypeError`. -/
def pyFloat : JVal → PRes ℚ
  | .jnum q => .ok q
  | .jbool b => .ok (if b then 1 else 0)
  | .jstr s =>
    match parseFloat s with
    | some q => .ok q
    | none => .exn .valueError
  | _ => .exn .typeError

/-- Python `round(x, 4)` (round half to even), as a rational. -/
def round4 (x : ℚ) : ℚ := mkRat (rhe (qmul x (pow10 4))) (10 ^ 4)

/-- The body of the time-point loop (aura.py lines 81-90) on the running
`(total, found)` state: on a matching hour label, add the parseable price
(`ValueError` is caught and skipped; other exceptions escape). -/
def processTp (hour_str : String) (acc : ℚ × Bool) (tp : JVal) : PRes (ℚ × Bool) :=
  (dictGet tp "name").bind (fun nameV =>
    if jeqStr nameV hour_str then
      (dictGet tp "priceWestDenmark").bind (fun price =>
        match price with
        | .jnull => .ok acc
        | v =>
          match pyFloat v with
          | .ok q => .ok (qadd acc.1 q, true)
          | .exn .valueError => .ok acc
          | .exn e => .exn e)
    else .ok acc)

/-- The body of the series loop (aura.py lines 79-90): iterate
`series.get("timePoints", [])`. -/
def processSeries (hour_str : String) (acc : ℚ × Bool) (series : JVal) : PRes (ℚ × Bool) :=
  (dictGetD series "timePoints" (.jarr [])).bind (fun tpv =>
    (pyIter tpv).bind (fun tps => tps.foldlM (processTp hour_str) acc))

/-- The `(total, found)` state after scanning all series for one hour label
(aura.py lines 77-90). -/
def hourTotal (chart_series : List JVal) (hour_str : String) : PRes (ℚ × Bool) :=
  chart_series.foldlM (processSeries hour_str) (0, false)

/-- Models the aggregation core of `fetch_prices` (aura.py lines 69-97):
from the parsed payload to `some` hourly-totals dict, `none` (the
function's `None` returns), or an escaping exception. -/
def fetch_prices_aggregate (data : JVal) : PRes (Option (List (String × ℚ))) :=
  (dictGet data "chartSeries").bind (fun csv =>
    match csv with
    | .jarr cs =>
      if cs.isEmpty then .ok none
      else
        ((List.range 24).foldlM (fun acc i =>
            (hourTotal cs (hourLabel i)).bind (fun tf =>
              .ok (if tf.2 then acc ++ [(hourLabel i, round4 tf.1)] else acc)))
          ([] : List (String × ℚ))).bind (fun entries =>
          .ok (if entries.isEmpty then none else some entries))
    | _ => .ok none)

/-! ## Specification views of the aggregation

These definitions re-read the same payload functionally (per hour label:
the list of parseable prices found across all series), for stating what
the imperative loops of `fetch_prices` compute. -/

/-- The parseable prices one time point contributes to one hour label:
`[q]` when the point is a dict whose `name` equals the label and whose
`priceWestDenmark` is present and converts, else `[]`. -/
def tpPrices (hour_str : String) (tp : JVal) : List ℚ :=
  match tp with
  | .jobj fields =>
    if jeqStr ((lookupField fields "name").getD .jnull) hour_str then
      match (lookupField fields "priceWestDenmark").getD .jnull with
      | .jnull => []
      | v =>
        match pyFloat v with
        | .ok q => [q]
        | .exn _ => []
    else []
  | _ => []

/-- The time points of a series: its `timePoints` member when that is a
list (`[]` when the member is absent), else `[]`. -/
def seriesTps (s : JVal) : List JVal :=
  match s with
  | .jobj fields =>
    match (lookupField fields "timePoints").getD (.jarr []) with
    | .jarr tps => tps
    | _ => []
  | _ => []

/-- All parseable prices for one hour label across all series, in
traversal order. -/
def hourPrices (chart_series : List JVal) (hour_str : String) : List ℚ :=
  chart_series.flatMap (fun s => (seriesTps s).flatMap (tpPrices hour_str))

/-- A price value on which `float` cannot raise `TypeError`: anything but
a list or a dict. -/
def scalarPrice : JVal → Bool
  | .jarr _ => false
  | .jobj _ => false
  | _ => true

/-- A well-formed time point: a dict whose `priceWestDenmark` member (when
present) is not a container. -/
def wfTimePoint : JVal → Bool
  | .jobj fields => scalarPrice ((lookupField fields "priceWestDenmark").getD .jnull)
  | _ => false

/-- A well-formed series: a dict whose `timePoints` member is a list
(possibly by default) of well-formed time points. -/
def wfSeries : JVal → Bool
  | .jobj fields =>
    match (lookupField fields "timePoints").getD (.jarr []) with
    | .jarr tps => tps.all wfTimePoint
    | _ => false
  | _ => false

/-- A well-formed payload: a dict whose `chartSeries` member, when it is a
list, holds only well-formed series.  On such payloads the aggregation
raises no exception. -/
def wfPayload : JVal → Bool
  | .jobj fields =>
    match (lookupField fields "chartSeries").getD .jnull with
    | .jarr cs => cs.all wfSeries
    | _ => true
  | _ => false

/-- The series container when the payload is a dict with a list-valued
`chartSeries` member. -/
def seriesList (data : JVal) : Option (List JVal) :=
  match data with
  | .jobj fields =>
    match (lookupField fields "chartSeries").getD .jnull with
    | .jarr cs => some cs
    | _ => none
  | _ => none

/-- The hour indices (0-23) for which at least one parseable price exists. -/
def includedHours (chart_series : List JVal) : List ℕ :=
  (List.range 24).filter (fun i => !(hourPrices chart_series (hourLabel i)).isEmpty)

/-- Python `sum` of a price list (kernel-computable; equals `List.sum`). -/
def sumPrices (l : List ℚ) : ℚ := l.foldl qadd 0

/-- What the aggregation returns on well-formed payloads: `none` without a
list-valued series container or with zero included hours, else the map
from each included hour label to its rounded price sum. -/
def aggSpec (data : JVal) : Option (List (String × ℚ)) :=
  match seriesList data with
  | none => none
  | some cs =>
    if (includedHours cs).isEmpty then none
    else some ((includedHours cs).map (fun i =>
      (hourLabel i, round4 (sumPrices (hourPrices cs (hourLabel i))))))

/-! ## General helper lemmas -/

theorem foldl_qadd (l : List ℚ) (z : ℚ) : l.foldl qadd z = z + l.sum := by
  induction l generalizing z with
  | nil => simp
  | cons x xs ih => simp [List.foldl_cons, ih, qadd_eq]; ring

theorem sumPrices_eq (l : List ℚ) : sumPrices l = l.sum := by
  rw [sumPrices, foldl_qadd, zero_add]

theorem tol5_eq : tol5 = 1 / 100000 := by rw [tol5, mkRat_eq_div']; norm_num

theorem tol4_eq : tol4 = 1 / 10000 := by rw [tol4, mkRat_eq_div']; norm_num

theorem insertLe_length {α : Type} (le : α → α → Bool) (x : α) (l : List α) :
    (insertLe le x l).length = l.length + 1 := by
  induction l with
  | nil => rfl
  | cons y ys ih =>
    rw [insertLe]
    split
    · rfl
    · simp [List.length_cons, ih]

theorem sortLe_length {α : Type} (le : α → α → Bool) (l : List α) :
    (sortLe le l).length = l.length := by
  induction l with
  | nil => rfl
  | cons x xs ih => rw [sortLe, List.foldr_cons, insertLe_length, ← sortLe, ih, List.length_cons]

theorem joinWith_length_ge (sep : String) (a : String) (rest : List String) :
    a.length ≤ (joinWith sep (a :: rest)).length := by
  cases rest with
  | nil => exact Nat.le_refl _
  | cons b bs =>
    rw [joinWith, String.length_append, String.length_append]
    omega

/-! ## Aggregation loop correspondence -/

theorem pres_ok_bind {α β : Type} (a : α) (f : α → PRes β) :
    (PRes.ok a) >>= f = f a := rfl

theorem pres_bind_ok {α β : Type} (a : α) (f : α → PRes β) :
    (PRes.ok a).bind f = f a := rfl

theorem processTp_eq (hour_str : String) (acc : ℚ × Bool) (tp : JVal)
    (hwf : wfTimePoint tp = true) :
    processTp hour_str acc tp
      = .ok (acc.1 + (tpPrices hour_str tp).sum, acc.2 || !(tpPrices hour_str tp).isEmpty) := by
  cases tp with
  | jobj fields =>
    rw [processTp, tpPrices, dictGet]
    rw [wfTimePoint] at hwf
    by_cases hname : jeqStr ((lookupField fields "name").getD .jnull) hour_str
    · simp only [hname, if_true, pres_ok_bind, PRes.bind]
      cases hv : (lookupField fields "priceWestDenmark").getD .jnull with
      | jnull => simp [dictGet, hv, PRes.bind]
      | jnum q => simp [dictGet, hv, PRes.bind, pyFloat, qadd_eq]
      | jbool b => simp [dictGet, hv, PRes.bind, pyFloat, qadd_eq]
      | jstr s =>
        simp only [dictGet, hv, PRes.bind, pyFloat, List.isEmpty_nil]
        cases hp : parseFloat s with
        | some q => simp [qadd_eq]
        | none => simp
      | jarr xs => rw [hv] at hwf; simp [scalarPrice] at hwf
      | jobj fs => rw [hv] at hwf; simp [scalarPrice] at hwf
    · simp [hname, PRes.bind]
  | jnull => simp [wfTimePoint] at hwf
  | jbool b => simp [wfTimePoint] at hwf
  | jnum q => simp [wfTimePoint] at hwf
  | jstr s => simp [wfTimePoint] at hwf
  | jarr xs => simp [wfTimePoint] at hwf

theorem not_isEmpty_append {α : Type} (a b : List α) :
    (!(a ++ b).isEmpty) = (!a.isEmpty || !b.isEmpty) := by
  cases a <;> cases b <;> rfl

theorem foldlM_processTp (hour_str : String) (tps : List JVal)
    (hwf : ∀ tp ∈ tps, wfTimePoint tp = true) (acc : ℚ × Bool) :
    tps.foldlM (processTp hour_str) acc
      = .ok (acc.1 + (tps.flatMap (tpPrices hour_str)).sum,
          acc.2 || !(tps.flatMap (tpPrices hour_str)).isEmpty) := by
  induction tps generalizing acc with
  | nil => simp [List.foldlM]; rfl
  | cons t ts ih =>
    rw [List.foldlM_cons, processTp_eq hour_str acc t (hwf t (List.mem_cons_self t ts)),
      pres_ok_bind, ih (fun tp h => hwf tp (List.mem_cons_of_mem t h))]
    simp only [List.flatMap_cons, List.sum_append, not_isEmpty_append, add_assoc, Bool.or_assoc]

theorem processSeries_eq (hour_str : String) (acc : ℚ × Bool) (s : JVal)
    (hwf : wfSeries s = true) :
    processSeries hour_str acc s
      = .ok (acc.1 + ((seriesTps s).flatMap (tpPrices hour_str)).sum,
          acc.2 || !((seriesTps s).flatMap (tpPrices hour_str)).isEmpty) := by
  cases s with
  | jobj fields =>
    rw [processSeries, dictGetD, seriesTps]
    rw [wfSeries] at hwf
    cases htp : (lookupField fields "timePoints").getD (.jarr []) with
    | jarr tps =>
      rw [htp] at hwf
      simp only [List.all_eq_true] at hwf
      simp only [PRes.bind, pyIter]
      exact foldlM_processTp hour_str tps hwf acc
    | jnull => rw [htp] at hwf; simp at hwf
    | jbool b => rw [htp] at hwf; simp at hwf
    | jnum q => rw [htp] at hwf; simp at hwf
    | jstr t => rw [htp] at hwf; simp at hwf
    | jobj fs => rw [htp] at hwf; simp at hwf
  | jnull => simp [wfSeries] at hwf
  | jbool b => simp [wfSeries] at hwf
  | jnum q => simp [wfSeries] at hwf
  | jstr t => simp [wfSeries] at hwf
  | jarr xs => simp [wfSeries] at hwf

theorem foldlM_processSeries (hour_str : String) (cs : List JVal)
    (hwf : ∀ s ∈ cs, wfSeries s = true) (acc : ℚ × Bool) :
    cs.foldlM (processSeries hour_str) acc
      = .ok (acc.1 + (hourPrices cs hour_str).sum,
          acc.2 || !(hourPrices cs hour_str).isEmpty) := by
  induction cs generalizing acc with
  | nil => simp [List.foldlM, hourPrices]; rfl
  | cons c cs' ih =>
    rw [List.foldlM_cons, processSeries_eq hour_str acc c (hwf c (List.mem_cons_self c cs')),
      pres_ok_bind, ih (fun s h => hwf s (List.mem_cons_of_mem c h))]
    simp only [hourPrices, List.flatMap_cons, List.sum_append, not_isEmpty_append,
      add_assoc, Bool.or_assoc]

theorem hourTotal_eq (cs : List JVal) (hour_str : String)
    (hwf : ∀ s ∈ cs, wfSeries s = true) :
    hourTotal cs hour_str
      = .ok ((hourPrices cs hour_str).sum, !(hourPrices cs hour_str).isEmpty) := by
  rw [hourTotal, foldlM_processSeries hour_str cs hwf]
  simp

theorem foldlM_hours (cs : List JVal) (hwf : ∀ s ∈ cs, wfSeries s = true)
    (hs : List ℕ) (acc : List (String × ℚ)) :
    hs.foldlM (fun acc i =>
        (hourTotal cs (hourLabel i)).bind (fun tf =>
          .ok (if tf.2 then acc ++ [(hourLabel i, round4 tf.1)] else acc))) acc
      = .ok (acc ++ (hs.filter (fun i => !(hourPrices cs (hourLabel i)).isEmpty)).map
          (fun i => (hourLabel i, round4 (hourPrices cs (hourLabel i)).sum))) := by
  induction hs generalizing acc with
  | nil => simp [List.foldlM]; rfl
  | cons i is ih =>
    rw [List.foldlM_cons, hourTotal_eq cs (hourLabel i) hwf, pres_bind_ok]
    dsimp only
    simp only [pres_ok_bind, pres_bind_ok]
    rw [ih]
    cases hfound : (hourPrices cs (hourLabel i)).isEmpty with
    | false => simp [List.filter_cons, hfound]
    | true => simp [List.filter_cons, hfound]

theorem isEmpty_map {α β : Type} (f : α → β) (l : List α) :
    (l.map f).isEmpty = l.isEmpty := by
  cases l <;> rfl

theorem aggregate_eq_spec (data : JVal) (hwf : wfPayload data = true) :
    fetch_prices_aggregate data = .ok (aggSpec data) := by
  cases data with
  | jobj fields =>
    simp only [wfPayload] at hwf
    simp only [fetch_prices_aggregate, dictGet, aggSpec, seriesList, pres_bind_ok]
    cases hcs : (lookupField fields "chartSeries").getD .jnull with
    | jarr cs =>
      rw [hcs] at hwf
      simp only [List.all_eq_true] at hwf
      cases hempty : cs.isEmpty with
      | true =>
        have hnil : cs = [] := by
          cases cs with
          | nil => rfl
          | cons a l => exact absurd hempty (by simp)
        subst hnil
        simp [includedHours, hourPrices]
      | false =>
        simp only [hempty, Bool.false_eq_true, if_false]
        rw [foldlM_hours cs hwf (List.range 24) [], pres_bind_ok, List.nil_append]
        simp only [includedHours, sumPrices_eq, isEmpty_map]
    | jnull => rfl
    | jbool b => rfl
    | jnum q => rfl
    | jstr str => rfl
    | jobj fs => rfl
  | jnull => simp [wfPayload] at hwf
  | jbool b => simp [wfPayload] at hwf
  | jnum q => simp [wfPayload] at hwf
  | jstr str => simp [wfPayload] at hwf
  | jarr xs => simp [wfPayload] at hwf

/-! ## Claims C1 and C8: the aggregation -/

/-- The payload of C1's example: two series, reporting prices 1.0 and 2.0
for hour "00". -/
def claim1Series : List JVal :=
  [.jobj [("timePoints", .jarr [.jobj [("name", .jstr "00"), ("priceWestDenmark", .jnum 1)]])],
   .jobj [("timePoints", .jarr [.jobj [("name", .jstr "00"), ("priceWestDenmark", .jnum 2)]])]]

/-- The example payload of C1 wrapped in its `chartSeries` container. -/
def claim1Payload : JVal := .jobj [("chartSeries", .jarr claim1Series)]

/-- C1, counterexample: the claim quantifies over every raw payload, but on
the payload `5` (a JSON number, which lacks a list-valued `chartSeries`
container) the aggregation does not return `NoData`: `data.get` raises
`AttributeError`. -/
theorem claim1_counterexample :
    seriesList (JVal.jnum 5) = none
    ∧ fetch_prices_aggregate (JVal.jnum 5) = PRes.exn PyErr.attributeError
    ∧ fetch_prices_aggregate (JVal.jnum 5) ≠ PRes.ok none :=
  ⟨rfl, by decide, by decide⟩

/-- C1, amended: for every payload on which the aggregation raises no
exception (a dict whose `chartSeries` member, when a list, holds dicts of
list-held time-point dicts with non-container price values), the
aggregation returns `NoData` (`none`) iff the payload lacks a list-valued
`chartSeries` container or zero hours end up included; otherwise it
returns the map sending exactly each hour label with at least one
parseable price to the sum of those prices rounded to 4 decimal places. -/
theorem claim1_amended (data : JVal) (hwf : wfPayload data = true) :
    (fetch_prices_aggregate data = PRes.ok none ↔
      seriesList data = none ∨ ∃ cs, seriesList data = some cs ∧ includedHours cs = [])
    ∧ (∀ m, fetch_prices_aggregate data = PRes.ok (some m) →
        ∃ cs, seriesList data = some cs ∧
          m = (includedHours cs).map (fun i =>
            (hourLabel i, round4 (hourPrices cs (hourLabel i)).sum))) := by
  rw [aggregate_eq_spec data hwf, aggSpec]
  cases hs : seriesList data with
  | none =>
    dsimp only
    constructor
    · simp
    · intro m hm
      exact absurd hm (by simp)
  | some cs =>
    dsimp only
    simp only [sumPrices_eq]
    cases hinc : (includedHours cs).isEmpty with
    | true =>
      have hnil : includedHours cs = [] := by
        cases h : includedHours cs with
        | nil => rfl
        | cons a l => rw [h] at hinc; simp [List.isEmpty] at hinc
      rw [if_pos rfl]
      constructor
      · constructor
        · intro _
          exact Or.inr ⟨cs, rfl, hnil⟩
        · intro _
          rfl
      · intro m hm
        exact absurd hm (by simp)
    | false =>
      rw [if_neg Bool.false_ne_true]
      constructor
      · constructor
        · intro h
          exact absurd h (by simp)
        · intro h
          rcases h with h | ⟨cs', hcs', hnil⟩
          · exact Option.noConfusion h
          · rw [Option.some.injEq] at hcs'
            subst hcs'
            rw [hnil] at hinc
            simp [List.isEmpty] at hinc
      · intro m hm
        simp only [PRes.ok.injEq, Option.some.injEq] at hm
        exact ⟨cs, rfl, hm.symm⟩

/-- C1, witness: on the example payload (two series reporting 1.0 and 2.0
for hour "00") the amended theorem applies, and the aggregation indeed
yields the map `{"00": 3.0}` and not `NoData`. -/
theorem claim1_amended_witness :
    wfPayload claim1Payload = true
    ∧ fetch_prices_aggregate claim1Payload = PRes.ok (some [("00", (3 : ℚ))])
    ∧ ¬ (fetch_prices_aggregate claim1Payload = PRes.ok none) := by
  refine ⟨by decide, by decide, ?_⟩
  intro hk
  rcases (claim1_amended claim1Payload (by decide)).1.mp hk with h1 | ⟨cs, h2, h3⟩
  · rw [show seriesList claim1Payload = some claim1Series from rfl] at h1
    exact Option.noConfusion h1
  · rw [show seriesList claim1Payload = some claim1Series from rfl,
      Option.some.injEq] at h2
    subst h2
    exact absurd h3 (by decide)

/-- The payload of C8's counterexample: a list-valued `priceWestDenmark`
before a parseable one. -/
def claim8BadPayload : JVal := .jobj [("chartSeries", .jarr
  [.jobj [("timePoints", .jarr
    [.jobj [("name", .jstr "00"), ("priceWestDenmark", .jarr [])],
     .jobj [("name", .jstr "00"), ("priceWestDenmark", .jnum 5)]])]])]

/-- C8, counterexample: an unparseable price value of list type does not
get skipped: `float` on it raises `TypeError`, which the loop's
`except ValueError` does not catch, so the aggregation fails instead of
returning the result from the remaining parseable prices (`{"00": 5}`). -/
theorem claim8_counterexample :
    fetch_prices_aggregate claim8BadPayload = PRes.exn PyErr.typeError
    ∧ fetch_prices_aggregate claim8BadPayload ≠ PRes.ok (some [("00", (5 : ℚ))]) :=
  ⟨by decide, by decide⟩

/-- C8, amended: for every payload whose individual price values are
scalars (null, boolean, number or string — never a list or dict), an
unparseable price value is skipped (it contributes nothing to the hour's
sum and does not mark the hour as found) and never causes aggregation to
fail: the aggregation returns `ok` of the result computed from the
remaining parseable prices (`aggSpec`, whose per-hour price lists hold
exactly the values `float` accepts). -/
theorem claim8_amended (data : JVal) (hwf : wfPayload data = true) :
    fetch_prices_aggregate data = PRes.ok (aggSpec data)
    ∧ ∀ e, fetch_prices_aggregate data ≠ PRes.exn e := by
  refine ⟨aggregate_eq_spec data hwf, ?_⟩
  intro e h
  rw [aggregate_eq_spec data hwf] at h
  exact PRes.noConfusion h

/-- The payload of C8's witness: prices 1.0, "abc" (unparseable) and 2.0
for hour "00" in one series. -/
def claim8Payload : JVal := .jobj [("chartSeries", .jarr
  [.jobj [("timePoints", .jarr
    [.jobj [("name", .jstr "00"), ("priceWestDenmark", .jnum 1)],
     .jobj [("name", .jstr "00"), ("priceWestDenmark", .jstr "abc")],
     .jobj [("name", .jstr "00"), ("priceWestDenmark", .jnum 2)]])]])]

/-- C8, witness: on a payload with an unparseable string price between two
parseable prices the amended theorem applies, and the aggregation returns
the sum of the parseable ones. -/
theorem claim8_amended_witness :
    wfPayload claim8Payload = true
    ∧ fetch_prices_aggregate claim8Payload = PRes.ok (some [("00", (3 : ℚ))]) := by
  refine ⟨by decide, ?_⟩
  rw [(claim8_amended claim8Payload (by decide)).1]
  decide

/-! ## Claim C4: the hour-range compressor -/

/-- C4: `format_hour_ranges` sorts the hours ascending, merges maximal
consecutive runs, renders a one-element run as `"HH:00"` (for every label,
so a single hour 23 does not wrap) and a longer run with exclusive end
`(end + 1) % 24` (so a run ending at 23 ends at `"00:00"`), joins with
`", "`, and returns `""` on empty input; checked on the claim's examples. -/
theorem claim4_hour_ranges :
    (∀ s : String, format_hour_ranges [s] = hourLabel (parseHour s) ++ ":00")
    ∧ format_hour_ranges ["00", "01", "02", "05"] = "00:00-03:00, 05:00"
    ∧ format_hour_ranges ["23"] = "23:00"
    ∧ format_hour_ranges ["22", "23"] = "22:00-00:00"
    ∧ format_hour_ranges [] = "" := by
  refine ⟨?_, by decide, by decide, by decide, by decide⟩
  intro s
  simp [format_hour_ranges, sortLe, insertLe, rangesWalk, flushRange, joinWith]

/-! ## Claim C7: the sparkline renderer -/

theorem foldl_min_replicate (q : ℚ) (k : ℕ) :
    List.foldl (fun acc x => if x < acc then x else acc) q (List.replicate k q) = q := by
  induction k with
  | zero => rfl
  | succ m ih => rw [List.replicate_succ, List.foldl_cons, if_neg (lt_irrefl q), ih]

theorem foldl_max_replicate (q : ℚ) (k : ℕ) :
    List.foldl (fun acc x => if acc < x then x else acc) q (List.replicate k q) = q := by
  induction k with
  | zero => rfl
  | succ m ih => rw [List.replicate_succ, List.foldl_cons, if_neg (lt_irrefl q), ih]

/-- C7: after filtering out nulls, the sparkline has one glyph per
surviving value in input order; a flat sequence (min = max) maps every
value to the lowest glyph; and on the claim's examples `[1, 2, 3]` rises
through levels 0, 3, 7 while the empty input gives `""`. -/
theorem claim7_sparkline :
    (∀ l : List (Option ℚ), (ascii_sparkline l).length = (l.filterMap id).length)
    ∧ (∀ (n : ℕ) (q : ℚ),
        ascii_sparkline (List.replicate n (some q)) = String.mk (List.replicate n '▁'))
    ∧ ascii_sparkline [some 1, some 2, some 3] = "▁▄█"
    ∧ ascii_sparkline [some 5, some 5, some 5] = "▁▁▁"
    ∧ ascii_sparkline [] = "" := by
  refine ⟨?_, ?_, by decide, by decide, by decide⟩
  · intro l
    rw [ascii_sparkline]
    cases h : l.filterMap id with
    | nil => rfl
    | cons p rest => simp [String.length]
  · intro n q
    have hrep : (List.replicate n (some q)).filterMap id = List.replicate n q := by
      induction n with
      | zero => rfl
      | succ k ih => simp [List.replicate_succ, List.filterMap_cons, ih]
    rw [ascii_sparkline, hrep]
    cases n with
    | zero => rfl
    | succ k =>
      rw [List.replicate_succ]
      dsimp only
      rw [show pyMinList (q :: List.replicate k q) = q from by
            rw [pyMinList]; exact foldl_min_replicate q k,
          show pyMaxList (q :: List.replicate k q) = q from by
            rw [pyMaxList]; exact foldl_max_replicate q k,
        ← List.replicate_succ]
      have hmap : (List.replicate (k + 1) q).map
          (fun p => sparkBars.getD (sparkScale q q p) '▁') = List.replicate (k + 1) '▁' := by
        have h1 : ∀ p ∈ List.replicate (k + 1) q,
            sparkBars.getD (sparkScale q q p) '▁' = (fun _ : ℚ => '▁') p := by
          intro p hp
          rw [List.eq_of_mem_replicate hp,
            show sparkScale q q q = 0 from by rw [sparkScale, if_neg (lt_irrefl q)]]
          rfl
        rw [List.map_congr_left h1, List.map_replicate]
      rw [hmap]

/-! ## Claim C5: the price formatter -/

/-- Characters that can appear in `format_price` output: a sign, a decimal
point, or a decimal digit — in particular no scientific-notation marker. -/
def allowedChar (c : Char) : Bool := c == '-' || c == '.' || c.isDigit

theorem natCharsAux_digits (fuel n : ℕ) : ∀ c ∈ natCharsAux fuel n, c.isDigit = true := by
  induction fuel generalizing n with
  | zero => intro c hc; exact absurd hc (List.not_mem_nil c)
  | succ f ih =>
    intro c hc
    rw [natCharsAux] at hc
    by_cases hn : n = 0
    · rw [if_pos hn] at hc
      exact absurd hc (List.not_mem_nil c)
    · rw [if_neg hn] at hc
      rcases List.mem_append.mp hc with h | h
      · exact ih (n / 10) c h
      · rw [List.mem_singleton] at h
        subst h
        obtain ⟨m, hm⟩ : ∃ m, n % 10 = m := ⟨n % 10, rfl⟩
        rw [hm]
        have hlt : m < 10 := hm ▸ Nat.mod_lt n (by norm_num)
        interval_cases m <;> decide

theorem natToChars_digits (n : ℕ) : ∀ c ∈ natToChars n, c.isDigit = true := by
  intro c hc
  rw [natToChars] at hc
  by_cases hn : n = 0
  · rw [if_pos hn, List.mem_singleton] at hc
    subst hc
    decide
  · rw [if_neg hn] at hc
    exact natCharsAux_digits (n + 1) n c hc

theorem formatFixedChars_allowed (p : ℚ) (d : ℕ) :
    ∀ c ∈ formatFixedChars p d, allowedChar c = true := by
  intro c hc
  simp only [formatFixedChars] at hc
  rcases List.mem_append.mp hc with h | h
  · rcases List.mem_append.mp h with h1 | h1
    · by_cases hp : p < 0
      · rw [if_pos hp, List.mem_singleton] at h1
        subst h1
        decide
      · rw [if_neg hp] at h1
        exact absurd h1 (List.not_mem_nil c)
    · have hd := natToChars_digits _ c h1
      simp [allowedChar, hd]
  · by_cases hd : d = 0
    · rw [if_pos hd] at h
      exact absurd h (List.not_mem_nil c)
    · rw [if_neg hd, List.mem_cons] at h
      rcases h with h | h
      · subst h
        decide
      · rw [padZeros] at h
        rcases List.mem_append.mp h with h2 | h2
        · have h3 := List.eq_of_mem_replicate h2
          subst h3
          decide
        · have h3 := natToChars_digits _ c h2
          simp [allowedChar, h3]

theorem mem_stripTrailing {p : Char → Bool} {c : Char} {cs : List Char}
    (h : c ∈ stripTrailing p cs) : c ∈ cs := by
  rw [stripTrailing, List.mem_reverse] at h
  exact List.mem_reverse.mp (List.Sublist.mem h (List.dropWhile_sublist p))

/-- C5: `format_price` renders the value at `max_decimals` fixed decimal
places, strips trailing zeros and (when no fraction digits remain) the
point, and never uses scientific notation: every output character is a
sign, a point or a digit; checked on the claim's examples. -/
theorem claim5_format_price :
    (∀ (price : ℚ) (max_decimals : ℕ),
      (format_price price max_decimals).data.all allowedChar = true)
    ∧ format_price 2 4 = "2"
    ∧ format_price (mkRat 233 100) 4 = "2.33"
    ∧ format_price (mkRat 22633 10000) 4 = "2.2633"
    ∧ format_price 0 4 = "0" := by
  refine ⟨?_, by decide, by decide, by decide, by decide⟩
  intro p d
  simp only [format_price]
  split
  · refine List.all_eq_true.mpr ?_
    intro c hc
    exact formatFixedChars_allowed p d c (mem_stripTrailing (mem_stripTrailing hc))
  · refine List.all_eq_true.mpr ?_
    intro c hc
    exact formatFixedChars_allowed p d c hc

/-! ## Claim C6: sign behaviour of the price formatter -/

theorem rfloor_eq (q : ℚ) : Rat.floor q = ⌊q⌋ := by rw [Rat.floor_def', Rat.floor_def]

theorem half_eq : mkRat 1 2 = (1 : ℚ) / 2 := by
  rw [mkRat_eq_div']
  norm_num

theorem rhe_eq_spec (x : ℚ) :
    rhe x = if Int.fract x < 1 / 2 then ⌊x⌋
      else if 1 / 2 < Int.fract x then ⌊x⌋ + 1
      else if ⌊x⌋ % 2 = 0 then ⌊x⌋ else ⌊x⌋ + 1 := by
  simp only [rhe, rfloor_eq, qsub_eq, half_eq, Int.self_sub_floor]

theorem rhe_neg (x : ℚ) : rhe (-x) = -(rhe x) := by
  by_cases h0 : Int.fract x = 0
  · have hx : x = ((⌊x⌋ : ℤ) : ℚ) := by
      have h := Int.self_sub_floor x
      rw [h0] at h
      linarith
    rw [rhe_eq_spec, rhe_eq_spec]
    rw [show -x = (((-⌊x⌋ : ℤ)) : ℚ) from by push_cast; linarith]
    rw [Int.fract_intCast, Int.floor_intCast, h0]
    simp only [if_pos (show (0 : ℚ) < 1 / 2 by norm_num)]
  · have hfr : Int.fract (-x) = 1 - Int.fract x := Int.fract_neg h0
    have hfl : ⌊-x⌋ = -⌊x⌋ - 1 := by
      have ha := Int.self_sub_floor (-x)
      have hb := Int.self_sub_floor x
      rw [hfr] at ha
      have hc : ((⌊-x⌋ : ℤ) : ℚ) = (((-⌊x⌋ - 1) : ℤ) : ℚ) := by
        push_cast at ha hb ⊢
        linarith
      exact_mod_cast hc
    have hpos : 0 < Int.fract x := lt_of_le_of_ne (Int.fract_nonneg x) (Ne.symm h0)
    have hlt1 : Int.fract x < 1 := Int.fract_lt_one x
    rw [rhe_eq_spec, rhe_eq_spec, hfr, hfl]
    rcases lt_trichotomy (Int.fract x) (1 / 2) with hc | hc | hc
    · rw [if_neg (by linarith : ¬((1 : ℚ) - Int.fract x < 1 / 2)),
        if_pos (by linarith : (1 : ℚ) / 2 < 1 - Int.fract x), if_pos hc]
      ring
    · rw [hc]
      simp only [if_neg (by norm_num : ¬((1 : ℚ) - 1 / 2 < 1 / 2)),
        if_neg (by norm_num : ¬((1 : ℚ) / 2 < 1 - 1 / 2)),
        if_neg (by norm_num : ¬((1 : ℚ) / 2 < 1 / 2))]
      by_cases hp : ⌊x⌋ % 2 = 0
      · rw [if_pos hp, if_neg (by omega)]
        omega
      · rw [if_neg hp, if_pos (by omega)]
        omega
    · rw [if_pos (by linarith : (1 : ℚ) - Int.fract x < 1 / 2),
        if_neg (by linarith : ¬(Int.fract x < 1 / 2)), if_pos hc]
      ring

theorem stripTrailing_append (p : Char → Bool) (l1 l2 : List Char)
    (h : ∃ c ∈ l2, p c = false) :
    stripTrailing p (l1 ++ l2) = l1 ++ stripTrailing p l2 := by
  rcases h with ⟨c, hc, hpc⟩
  rw [stripTrailing, stripTrailing, List.reverse_append, List.dropWhile_append]
  have hne : (l2.reverse.dropWhile p).isEmpty = false := by
    cases hd : l2.reverse.dropWhile p with
    | nil =>
      exfalso
      have hall := List.dropWhile_eq_nil_iff.mp hd
      have hpc' := hall c (List.mem_reverse.mpr hc)
      rw [hpc] at hpc'
      exact Bool.noConfusion hpc'
    | cons y ys => rfl
  rw [hne, if_neg Bool.false_ne_true, List.reverse_append, List.reverse_reverse]

theorem stripTrailing_cons (p : Char → Bool) (a : Char) (l : List Char)
    (h : ∃ c ∈ l, p c = false) :
    stripTrailing p (a :: l) = a :: stripTrailing p l := by
  have happ := stripTrailing_append p [a] l h
  simpa using happ

theorem natToChars_ne_nil (n : ℕ) : natToChars n ≠ [] := by
  rw [natToChars]
  by_cases hn : n = 0
  · rw [if_pos hn]
    exact List.cons_ne_nil _ _
  · rw [if_neg hn]
    simp only [natCharsAux, if_neg hn]
    intro h
    exact List.cons_ne_nil _ _ (List.append_eq_nil.mp h).2

theorem dot_mem_formatFixedChars (p : ℚ) (d : ℕ) (hd : d ≠ 0) :
    '.' ∈ formatFixedChars p d := by
  simp only [formatFixedChars]
  refine List.mem_append.mpr (Or.inr ?_)
  rw [if_neg hd]
  exact List.mem_cons_self _ _

theorem dot_not_mem_formatFixedChars0 (p : ℚ) : '.' ∉ formatFixedChars p 0 := by
  intro h
  simp only [formatFixedChars] at h
  rcases List.mem_append.mp h with h1 | h1
  · rcases List.mem_append.mp h1 with h2 | h2
    · by_cases hp : p < 0
      · rw [if_pos hp, List.mem_singleton] at h2
        exact absurd h2 (by decide)
      · rw [if_neg hp] at h2
        exact absurd h2 (List.not_mem_nil _)
    · have hdig := natToChars_digits _ '.' h2
      exact absurd hdig (by decide)
  · rw [if_pos trivial] at h1
    exact absurd h1 (List.not_mem_nil _)

theorem contains_eq_true_of_mem {cs : List Char} {c : Char} (h : c ∈ cs) :
    cs.contains c = true := List.elem_iff.mpr h

theorem contains_eq_false_of_not_mem {cs : List Char} {c : Char} (h : c ∉ cs) :
    cs.contains c = false := by
  cases hc : cs.contains c with
  | false => rfl
  | true => exact absurd (List.elem_iff.mp hc) h

theorem formatFixedChars_neg (q : ℚ) (d : ℕ) (hq : q < 0) :
    formatFixedChars q d = '-' :: formatFixedChars (-q) d := by
  simp only [formatFixedChars]
  have hm : qmul (-q) (pow10 d) = -(qmul q (pow10 d)) := by
    rw [qmul_eq, qmul_eq, neg_mul]
  rw [hm, rhe_neg, Int.natAbs_neg]
  rw [if_pos hq, if_neg (not_lt.mpr (le_of_lt (neg_pos.mpr hq)))]
  rfl

theorem exists_digit_head (m : ℕ) : ∃ c ∈ natToChars m, (c == '.') = false := by
  cases hh : natToChars m with
  | nil => exact absurd hh (natToChars_ne_nil m)
  | cons c cs =>
    refine ⟨c, List.mem_cons_self c cs, ?_⟩
    have hd : c.isDigit = true :=
      natToChars_digits m c (by rw [hh]; exact List.mem_cons_self c cs)
    refine beq_eq_false_iff_ne.mpr ?_
    intro he
    subst he
    exact absurd hd (by decide)

/-- C6, counterexample: on a negative value `format_price` does not return
the formatted magnitude: `format_price (-2) = "-2"` while the magnitude
formats to `"2"`. -/
theorem claim6_counterexample :
    format_price (-2 : ℚ) 4 = "-2"
    ∧ format_price (2 : ℚ) 4 = "2"
    ∧ format_price (-2 : ℚ) 4 ≠ format_price (2 : ℚ) 4 :=
  ⟨by decide, by decide, by decide⟩

/-- C6, amended: for every negative input value, `format_price` returns
the formatted magnitude preceded by a leading minus sign (so the magnitude
itself, as the claim stated, only after dropping that sign; the trimming
logic never swallows the sign). -/
theorem claim6_amended (q : ℚ) (d : ℕ) (hq : q < 0) :
    format_price q d = "-" ++ format_price (-q) d := by
  simp only [format_price, formatFixedChars_neg q d hq]
  by_cases hd : d = 0
  · subst hd
    have hnot2 : (formatFixedChars (-q) 0).contains '.' = false :=
      contains_eq_false_of_not_mem (dot_not_mem_formatFixedChars0 (-q))
    have hnot : ('-' :: formatFixedChars (-q) 0).contains '.' = false := by
      apply contains_eq_false_of_not_mem
      intro h
      rcases List.mem_cons.mp h with h | h
      · exact absurd h (by decide)
      · exact dot_not_mem_formatFixedChars0 (-q) h
    rw [hnot, hnot2, if_neg Bool.false_ne_true, if_neg Bool.false_ne_true]
    rfl
  · have hdot2 : '.' ∈ formatFixedChars (-q) d := dot_mem_formatFixedChars (-q) d hd
    have hdot1 : ('-' :: formatFixedChars (-q) d).contains '.' = true :=
      contains_eq_true_of_mem (List.mem_cons_of_mem _ hdot2)
    rw [hdot1, contains_eq_true_of_mem hdot2, if_pos rfl, if_pos rfl]
    have hz : stripTrailing (fun c => c == '0') ('-' :: formatFixedChars (-q) d)
        = '-' :: stripTrailing (fun c => c == '0') (formatFixedChars (-q) d) :=
      stripTrailing_cons _ _ _ ⟨'.', hdot2, by decide⟩
    rw [hz]
    have hscs : formatFixedChars (-q) d
        = natToChars ((rhe (qmul (-q) (pow10 d))).natAbs / 10 ^ d)
          ++ ('.' :: padZeros d (natToChars ((rhe (qmul (-q) (pow10 d))).natAbs % 10 ^ d))) := by
      simp only [formatFixedChars]
      rw [if_neg (not_lt.mpr (le_of_lt (neg_pos.mpr hq))), if_neg hd]
      rfl
    have hstz : ∃ c ∈ stripTrailing (fun c => c == '0') (formatFixedChars (-q) d),
        (c == '.') = false := by
      obtain ⟨c, hcmem, hcne⟩ :=
        exists_digit_head ((rhe (qmul (-q) (pow10 d))).natAbs / 10 ^ d)
      refine ⟨c, ?_, hcne⟩
      rw [hscs, stripTrailing_append _ _ _ ⟨'.', List.mem_cons_self _ _, by decide⟩]
      exact List.mem_append.mpr (Or.inl hcmem)
    rw [stripTrailing_cons _ _ _ hstz]
    rfl

/-- C6, witness: the amended theorem at `-2` with four decimals:
`format_price (-2) = "-" ++ format_price 2 = "-2"`. -/
theorem claim6_amended_witness :
    ((-2 : ℚ) < 0) ∧ format_price (-2 : ℚ) 4 = "-" ++ format_price (2 : ℚ) 4 := by
  refine ⟨by decide, ?_⟩
  have h := claim6_amended (-2 : ℚ) 4 (by decide)
  rw [h, neg_neg]

/-! ## Claim C2: the single-day report summary -/

theorem pyAvg_eq (values : List ℚ) :
    qdiv (values.foldl qadd 0) (mkRat (values.length : ℤ) 1)
      = values.sum / (values.length : ℚ) := by
  rw [qdiv_eq, foldl_qadd, zero_add, Rat.mkRat_one]
  norm_num

/-- C2: in the single-day report, the second line shows the arithmetic mean
of all included values, and the cheapest (resp. most expensive) line shows
the hour-range rendering of exactly the hours whose price is within
absolute tolerance `1e-5` of the minimum (resp. maximum), followed by the
formatted extreme price. -/
theorem claim2_report (prices : List (String × ℚ)) (date_str : String)
    (sort_by : Option String) (hne : prices ≠ []) :
    (format_prices_lines prices date_str sort_by).get? 1
      = some ("Average Price: "
          ++ format_price ((prices.map Prod.snd).sum / ((prices.map Prod.snd).length : ℚ)) 4
          ++ " DKK/kWh")
    ∧ (format_prices_lines prices date_str sort_by).get? 2
      = some ("Cheapest: "
          ++ format_hour_ranges ((prices.filter (fun kv =>
              decide (|kv.2 - pyMinList (prices.map Prod.snd)| < 1 / 100000))).map Prod.fst)
          ++ " (" ++ format_price (pyMinList (prices.map Prod.snd)) 4 ++ " DKK/kWh)")
    ∧ (format_prices_lines prices date_str sort_by).get? 3
      = some ("Most Expensive: "
          ++ format_hour_ranges ((prices.filter (fun kv =>
              decide (|kv.2 - pyMaxList (prices.map Prod.snd)| < 1 / 100000))).map Prod.fst)
          ++ " (" ++ format_price (pyMaxList (prices.map Prod.snd)) 4 ++ " DKK/kWh)") := by
  simp only [format_prices_lines, List.cons_append, List.nil_append, qabs_eq, qsub_eq,
    tol5_eq, pyAvg_eq]
  exact ⟨rfl, rfl, rfl⟩

/-- C2, witness: the summary lines on `{"00": 2.0, "01": 1.0}`: average
`"1.5"`, cheapest `"01:00"` at `"1"`, most expensive `"00:00"` at `"2"`. -/
theorem claim2_report_witness :
    ([("00", (2 : ℚ)), ("01", 1)] ≠ ([] : List (String × ℚ)))
    ∧ some ("Average Price: "
          ++ format_price
              (([("00", (2 : ℚ)), ("01", 1)].map Prod.snd).sum
                / (([("00", (2 : ℚ)), ("01", 1)].map Prod.snd).length : ℚ)) 4
          ++ " DKK/kWh")
        = some "Average Price: 1.5 DKK/kWh"
    ∧ some ("Cheapest: "
          ++ format_hour_ranges (([("00", (2 : ℚ)), ("01", 1)].filter (fun kv =>
              decide (|kv.2 - pyMinList ([("00", (2 : ℚ)), ("01", 1)].map Prod.snd)| < 1 / 100000))).map Prod.fst)
          ++ " (" ++ format_price (pyMinList ([("00", (2 : ℚ)), ("01", 1)].map Prod.snd)) 4 ++ " DKK/kWh)")
        = some "Cheapest: 01:00 (1 DKK/kWh)"
    ∧ some ("Most Expensive: "
          ++ format_hour_ranges (([("00", (2 : ℚ)), ("01", 1)].filter (fun kv =>
              decide (|kv.2 - pyMaxList ([("00", (2 : ℚ)), ("01", 1)].map Prod.snd)| < 1 / 100000))).map Prod.fst)
          ++ " (" ++ format_price (pyMaxList ([("00", (2 : ℚ)), ("01", 1)].map Prod.snd)) 4 ++ " DKK/kWh)")
        = some "Most Expensive: 00:00 (2 DKK/kWh)" := by
  have h := claim2_report [("00", (2 : ℚ)), ("01", 1)] "2024/01/01" none (by decide)
  exact ⟨by decide, h.1.symm.trans (by decide), h.2.1.symm.trans (by decide),
    h.2.2.symm.trans (by decide)⟩

/-! ## Claim C9: the trend-sparkline line -/

/-- C9, counterexample: the trend sparkline follows the dict's insertion
order, not ascending hour order.  On the map inserted as
`{"01": 1.0, "00": 2.0}` the report line is the sparkline of `[1, 2]`
(`"▁█"`), not of the hour-ascending `[2, 1]` (`"█▁"`). -/
theorem claim9_counterexample :
    (format_prices_lines [("01", (1 : ℚ)), ("00", 2)] "2024/01/01" none).get? 4
        = some "Trend Sparkline: ▁█"
    ∧ ascii_sparkline (((sortLe (fun a b => strLe a.1 b.1)
          [("01", (1 : ℚ)), ("00", 2)]).map Prod.snd).map some) = "█▁"
    ∧ (format_prices_lines [("01", (1 : ℚ)), ("00", 2)] "2024/01/01" none).get? 4
        ≠ some ("Trend Sparkline: "
            ++ ascii_sparkline (((sortLe (fun a b => strLe a.1 b.1)
                [("01", (1 : ℚ)), ("00", 2)]).map Prod.snd).map some)) :=
  ⟨by decide, by decide, by decide⟩

/-- C9, amended: the trend-sparkline line of the single-day report is the
sparkline of the map's values in insertion (iteration) order; when the
entries are already in ascending hour-label order — as the aggregator and
the cache produce them — this is the hour-ascending value sequence. -/
theorem claim9_amended (prices : List (String × ℚ)) (date_str : String)
    (sort_by : Option String) (hne : prices ≠ [])
    (hsorted : prices = sortLe (fun a b => strLe a.1 b.1) prices) :
    (format_prices_lines prices date_str sort_by).get? 4
      = some ("Trend Sparkline: "
          ++ ascii_sparkline (((sortLe (fun a b => strLe a.1 b.1) prices).map
              Prod.snd).map some)) := by
  conv_rhs => rw [← hsorted]
  simp only [format_prices_lines, List.cons_append, List.nil_append]
  rfl

/-- C9, witness: the amended theorem at the hour-sorted map
`{"00": 2.0, "01": 1.0}`, whose sparkline line is the hour-ascending
`"█▁"`. -/
theorem claim9_amended_witness :
    ([("00", (2 : ℚ)), ("01", 1)] ≠ ([] : List (String × ℚ)))
    ∧ (format_prices_lines [("00", (2 : ℚ)), ("01", 1)] "2024/01/01" none).get? 4
        = some "Trend Sparkline: █▁" := by
  refine ⟨by decide, ?_⟩
  rw [claim9_amended [("00", (2 : ℚ)), ("01", 1)] "2024/01/01" none (by decide) (by decide)]
  decide

/-! ## Claim C10: comparison of maps with no common hour -/

theorem sortDiffs_nil (sb : Option String) : sortDiffs sb [] = [] := by
  rw [sortDiffs]
  split
  · rfl
  · split
    · rfl
    · rfl

/-- C10: for non-empty maps sharing no hour label, the comparison report is
exactly the title line and the fixed-width header row — no summary lines
and no data rows — and in particular not the empty string. -/
theorem claim10_disjoint (today_prices yesterday_prices : List (String × ℚ))
    (td yd : String) (sb : Option String)
    (ht : today_prices ≠ []) (hy : yesterday_prices ≠ [])
    (hdisj : ∀ i, i < 24 → ¬(hasKey today_prices (hourLabel i) = true
      ∧ hasKey yesterday_prices (hourLabel i) = true)) :
    format_comparison_for_display today_prices td yesterday_prices yd sb
      = (" PRICE COMPARISON (" ++ td ++ " vs " ++ yd ++ ") ") ++ "\n"
        ++ rowFmt "Hour" "Yest" "Today" "Change" "% Chg" "Trend"
    ∧ format_comparison_for_display today_prices td yesterday_prices yd sb ≠ "" := by
  have hcd : commonDiffs today_prices yesterday_prices = [] := by
    rw [commonDiffs]
    refine List.filterMap_eq_nil_iff.mpr ?_
    intro i hi
    dsimp only
    have hcond : ¬((hasKey today_prices (hourLabel i)
        && hasKey yesterday_prices (hourLabel i)) = true) := by
      intro hb
      simp only [Bool.and_eq_true] at hb
      exact hdisj i (List.mem_range.mp hi) hb
    rw [if_neg hcond]
  have ht' : today_prices.isEmpty = false := by
    cases today_prices with
    | nil => exact absurd rfl ht
    | cons a l => rfl
  have hy' : yesterday_prices.isEmpty = false := by
    cases yesterday_prices with
    | nil => exact absurd rfl hy
    | cons a l => rfl
  have heq : format_comparison_for_display today_prices td yesterday_prices yd sb
      = (" PRICE COMPARISON (" ++ td ++ " vs " ++ yd ++ ") ") ++ "\n"
        ++ rowFmt "Hour" "Yest" "Today" "Change" "% Chg" "Trend" := by
    rw [format_comparison_for_display, ht', hy', if_neg (by decide)]
    simp only [format_comparison_lines, hcd, sortDiffs_nil, List.map_nil, List.isEmpty_nil]
    rfl
  refine ⟨heq, ?_⟩
  rw [heq]
  intro h
  have hlen := congrArg String.length h
  rw [String.length_append, String.length_append, String.length_append,
    String.length_append, String.length_append, String.length_append] at hlen
  have h19 : (" PRICE COMPARISON (" : String).length = 19 := rfl
  have h0 : ("" : String).length = 0 := rfl
  omega

/-- C10, witness: the theorem at the disjoint non-empty maps
`{"00": 1.0}` and `{"01": 2.0}`. -/
theorem claim10_disjoint_witness :
    format_comparison_for_display [("00", (1 : ℚ))] "t" [("01", (2 : ℚ))] "y" none
      = (" PRICE COMPARISON (" ++ "t" ++ " vs " ++ "y" ++ ") ") ++ "\n"
        ++ rowFmt "Hour" "Yest" "Today" "Change" "% Chg" "Trend"
    ∧ format_comparison_for_display [("00", (1 : ℚ))] "t" [("01", (2 : ℚ))] "y" none ≠ "" :=
  claim10_disjoint [("00", (1 : ℚ))] [("01", (2 : ℚ))] "t" "y" none
    (by decide) (by decide) (by decide)

/-! ## Claim C3: the comparison report -/

theorem sortDiffs_length (sb : Option String) (ds : List (String × ℚ)) :
    (sortDiffs sb ds).length = ds.length := by
  rw [sortDiffs]
  split
  · exact sortLe_length _ _
  · split
    · exact sortLe_length _ _
    · rfl

theorem joinLines_cons_ne_empty (a : String) (ha : 0 < a.length) (rest : List String) :
    joinWith "\n" (a :: rest) ≠ "" := by
  intro h
  have hge := joinWith_length_ge "\n" a rest
  rw [h] at hge
  have h0 : ("" : String).length = 0 := rfl
  omega

/-- C3: the comparison report is the empty string exactly when either input
map is empty; otherwise it has one data row per hour 0-23 present in both
maps (2 fixed lines — title and header — plus 3 summary lines when at
least one hour is common, plus one row per common hour); on today
`{"00": 2.0}` vs yesterday `{"00": 1.0}` the row shows diff `"1"`, percent
change `"100%"` and trend `"▲"`, and a yesterday price of exactly zero
shows `"N/A"` instead of raising. -/
theorem claim3_comparison :
    (∀ (today_prices yesterday_prices : List (String × ℚ)) (td yd : String)
        (sb : Option String),
        format_comparison_for_display today_prices td yesterday_prices yd sb = ""
          ↔ (today_prices.isEmpty || yesterday_prices.isEmpty) = true)
    ∧ (∀ (today_prices yesterday_prices : List (String × ℚ)) (td yd : String)
        (sb : Option String),
        (format_comparison_lines today_prices td yesterday_prices yd sb).length
          = (if (commonDiffs today_prices yesterday_prices).isEmpty then 2 else 5)
            + (commonDiffs today_prices yesterday_prices).length)
    ∧ (format_comparison_lines [("00", (2 : ℚ))] "t" [("00", (1 : ℚ))] "y" none).get? 5
        = some "00:00-01:00 | 1        | 2        | 1        | 100%     | ▲    "
    ∧ (format_comparison_lines [("00", (1 : ℚ))] "t" [("00", (0 : ℚ))] "y" none).get? 5
        = some "00:00-01:00 | 0        | 1        | 1        | N/A      | ▲    " := by
  refine ⟨?_, ?_, by decide, by decide⟩
  · intro t y td yd sb
    constructor
    · intro h
      by_contra hne
      rw [format_comparison_for_display, if_neg hne, joinLines] at h
      simp only [format_comparison_lines, List.cons_append] at h
      refine joinLines_cons_ne_empty _ ?_ _ h
      rw [String.length_append, String.length_append, String.length_append,
        String.length_append]
      have h19 : (" PRICE COMPARISON (" : String).length = 19 := rfl
      omega
    · intro h
      rw [format_comparison_for_display, if_pos h]
  · intro t y td yd sb
    simp only [format_comparison_lines]
    cases hds : (commonDiffs t y).isEmpty with
    | true =>
      have hnil : commonDiffs t y = [] := by
        cases hc : commonDiffs t y with
        | nil => rfl
        | cons a l => rw [hc] at hds; exact Bool.noConfusion hds
      rw [hnil]
      simp [sortDiffs_nil]
    | false =>
      simp [sortDiffs_length]
      omega
